import Mathlib

/-!
Verification of the gps-scribble track-to-summary pipeline (`generate.py`).

Embedding conventions:
* Python floats are modelled by `FloatQ`: either an exact rational value or
  the special not-a-number produced by `float('nan')`.  Arithmetic on `nan`
  propagates it, comparisons against `nan` are false, and division by an
  exact zero is the `ZeroDivisionError` of Python (modelled in `Except`).
* `datetime` values are modelled by exact rationals counting seconds since
  the Unix epoch; `timedelta` values are rationals of seconds.  (`timedelta`
  arithmetic in Python is exact integer microsecond arithmetic.)
* XML sub-elements are modelled by `Option` fields carrying the value their
  text parses to; an absent sub-element is `none`.
* Python exceptions are modelled by `Except Err`; a generator that raises
  while being materialised by `list(...)` yields no output, which `Except`
  reproduces.
-/

/-- Python exception kinds that the embedded code can raise. -/
inductive Err where
  | typeError
  | nameError
  | zeroDivisionError
  | valueError
  | attributeError
deriving DecidableEq, Repr

/-- A Python float: an exact rational, or `nan` (from `float('nan')`). -/
inductive FloatQ where
  | nan : FloatQ
  | val : ℚ → FloatQ
deriving DecidableEq, Repr

/-- Python float addition: `nan` propagates. -/
def FloatQ.add : FloatQ → FloatQ → FloatQ
  | val x, val y => val (x + y)
  | _, _ => nan

/-- Python float subtraction: `nan` propagates. -/
def FloatQ.sub : FloatQ → FloatQ → FloatQ
  | val x, val y => val (x - y)
  | _, _ => nan

/-- Python float multiplication: `nan` propagates. -/
def FloatQ.mul : FloatQ → FloatQ → FloatQ
  | val x, val y => val (x * y)
  | _, _ => nan

/-- Python `a / b` on floats: division by an exact zero raises
`ZeroDivisionError` (even for `nan / 0.0`); otherwise `nan` propagates. -/
def FloatQ.div : FloatQ → FloatQ → Except Err FloatQ
  | a, val q =>
    if q = 0 then .error .zeroDivisionError
    else
      match a with
      | nan => .ok nan
      | val x => .ok (val (x / q))
  | _, nan => .ok nan

/-- Python `a > q` comparing a float with a number: false when `a` is `nan`. -/
def FloatQ.gt : FloatQ → ℚ → Bool
  | nan, _ => false
  | val m, q => decide (q < m)

/-- The rational carried by a `FloatQ`, with junk value `0` for `nan`.
Only used in statements guarded by non-`nan` hypotheses. -/
def FloatQ.toQ : FloatQ → ℚ
  | nan => 0
  | val q => q

/-- Python `sum(...)` over a list of floats (left fold starting from `0`). -/
def FloatQ.sumList (l : List FloatQ) : FloatQ :=
  l.foldl FloatQ.add (FloatQ.val 0)

/-- `MILES_PER_METER = 0.000621371` (exact decimal value of the source
constant as written; the claims are about exact identities in this value). -/
def MILES_PER_METER : ℚ := 621371 / 1000000000

/-- One recorded or synthesized track sample (dataclass `Trackpoint`).
`distance_meters` is the one field that can be `nan` (see `float_of`). -/
structure Trackpoint where
  time : ℚ
  altitude_meters : ℚ := 0
  distance_meters : FloatQ := FloatQ.val 0
  latitude_degrees : ℚ := 0
  longitude_degrees : ℚ := 0
deriving DecidableEq, Repr

/-- Projection of a trackpoint's distance to its rational value. -/
def distQ (p : Trackpoint) : ℚ := p.distance_meters.toQ

/-- A trackpoint's cumulative distance in miles (as computed by the source:
`d.distance_meters * MILES_PER_METER`), as a rational. -/
def milesQ (p : Trackpoint) : ℚ := distQ p * MILES_PER_METER

/-- Linear interpolation `interpolate(a, b, fraction)` from the source. -/
def interpolate (a b fraction : ℚ) : ℚ := a + (b - a) * fraction

/-- `mph(meters, duration)`: `meters * MILES_PER_METER / duration_seconds
* 60 * 60`, with `ZeroDivisionError` caught and turned into `0.0`. -/
def mph (meters : FloatQ) (duration : ℚ) : FloatQ :=
  match FloatQ.div (FloatQ.mul meters (FloatQ.val MILES_PER_METER)) (FloatQ.val duration) with
  | .error _ => FloatQ.val 0
  | .ok r => FloatQ.mul (FloatQ.mul r (FloatQ.val 60)) (FloatQ.val 60)

/-- The sentinel timestamp `'2019-11-11T01:02:03Z'` parsed with the `ISO`
format, as seconds since the Unix epoch. -/
def sentinel_time : ℚ := 1573434123

/-- `date_of(parent, name)`: the optional sub-element is modelled by the
timestamp its text parses to.  When the sub-element is absent the sentinel
string is parsed.  When it is present the source executes `s = e.text`,
but no variable `e` is in scope (the element was bound as `element`), so
Python raises `NameError`. -/
def date_of (element : Option ℚ) : Except Err ℚ :=
  match element with
  | none => .ok sentinel_time
  | some _ => .error .nameError

/-- `float_of(parent, name)`: the value of the sub-element's text, or
`nan` when the sub-element is absent. -/
def float_of (element : Option ℚ) : FloatQ :=
  match element with
  | none => .nan
  | some q => .val q

/-- The `Position` sub-element of a `Trackpoint` element, with its optional
`LatitudeDegrees` and `LongitudeDegrees` sub-elements (by parsed value). -/
structure PositionEl where
  latitude : Option ℚ
  longitude : Option ℚ
deriving DecidableEq, Repr

/-- One `Trackpoint` element of the document, with its optional `Time`,
`Position`, `AltitudeMeters` and `DistanceMeters` sub-elements (each
modelled by the value its text parses to). -/
structure TPElement where
  time : Option ℚ
  position : Option PositionEl
  altitude : Option ℚ
  distance : Option ℚ
deriving DecidableEq, Repr

/-- The body of the `parse_trackpoints` loop for one element.  `Position`
and `AltitudeMeters` are looked up first; a missing altitude skips the
element (`continue`, modelled by `ok none`).  Otherwise the `Trackpoint(...)`
keyword arguments are evaluated left to right: `date_of` first (which
raises `NameError` whenever `Time` is present), then altitude, then
`float_of`, then the two accesses through `p` (raising `AttributeError`
when `Position` or the coordinate sub-elements are missing, since `p` is
`None` or `p.find(...)` is `None`). -/
def parseElement (t : TPElement) : Except Err (Option Trackpoint) :=
  match t.altitude with
  | none => .ok none
  | some alt =>
    match date_of t.time with
    | .error e => .error e
    | .ok time =>
      let dist := float_of t.distance
      match t.position with
      | none => .error .attributeError
      | some p =>
        match p.latitude with
        | none => .error .attributeError
        | some lat =>
          match p.longitude with
          | none => .error .attributeError
          | some lon =>
            .ok (some { time := time, altitude_meters := alt,
                        distance_meters := dist,
                        latitude_degrees := lat, longitude_degrees := lon })

/-- `list(parse_trackpoints(document))`: the kept samples in document
order; the first exception raised while generating aborts the whole
materialisation with no output. -/
def parse_trackpoints : List TPElement → Except Err (List Trackpoint)
  | [] => .ok []
  | t :: rest =>
    match parseElement t with
    | .error e => .error e
    | .ok none => parse_trackpoints rest
    | .ok (some tp) =>
      match parse_trackpoints rest with
      | .error e => .error e
      | .ok tps => .ok (tp :: tps)

/-- One per-segment record (dataclass `Split`; the source field `end` is a
Lean keyword and is rendered `stop`). -/
structure Split where
  start : ℚ
  stop : ℚ
  duration : ℚ
  meters : FloatQ := FloatQ.val 0
  mph : FloatQ := FloatQ.val 0
deriving DecidableEq, Repr

/-- The loop of `compute_splits`: one `Split` per boundary, with the running
`previous` boundary threaded through. -/
def splitsAux (previous : Trackpoint) : List Trackpoint → List Split
  | [] => []
  | b :: rest =>
    let meters := FloatQ.sub b.distance_meters previous.distance_meters
    let duration := b.time - previous.time
    { start := previous.time, stop := b.time, duration := duration,
      meters := meters, mph := mph meters duration } :: splitsAux b rest

/-- `list(compute_splits(trackpoints, mileposts))`: boundaries are
`mileposts + [trackpoints[-1]]`, starting from `trackpoints[0]`.  An empty
trackpoint list would raise `IndexError` on `trackpoints[0]` (`none`). -/
def compute_splits (trackpoints mileposts : List Trackpoint) : Option (List Split) :=
  match trackpoints with
  | [] => none
  | first :: rest =>
    some (splitsAux first (mileposts ++ [(first :: rest).getLast (List.cons_ne_nil first rest)]))

/-- `'%.6f' % q`: the 6-decimal rendering of a coordinate, modelled by the
integer of millionths it rounds to. -/
def format6 (q : ℚ) : ℤ := round (q * 1000000)

/-- The cache key `'%.6f %.6f' % (lat, lon)`. -/
def geoKey (lat lon : ℚ) : ℤ × ℤ := (format6 lat, format6 lon)

/-- The caching geocoder's persistent mapping, as an association list
(later inserts shadow earlier ones, like Python dict assignment). -/
structure CachingGeocoder (R : Type) where
  data : List ((ℤ × ℤ) × Option R)

/-- `self.data.get(key)`: `none` both when the key is absent and when the
stored value is Python `None` (the two are indistinguishable to `get`). -/
def dataGet {R : Type} (l : List ((ℤ × ℤ) × Option R)) (k : ℤ × ℤ) : Option R :=
  (l.find? (fun kv => decide (kv.1 = k))).bind Prod.snd

/-- `CachingGeocoder.search(lat, lon)`: returns the result, the updated
cache, and how many times the underlying geocoder was invoked (0 or 1). -/
def CachingGeocoder.search {R : Type} (geo : ℚ → ℚ → Option R)
    (c : CachingGeocoder R) (lat lon : ℚ) : Option R × CachingGeocoder R × ℕ :=
  let key := geoKey lat lon
  match dataGet c.data key with
  | some result => (some result, c, 0)
  | none =>
    let result := geo lat lon
    (result, ⟨(key, result) :: c.data⟩, 1)

/-- C3: the claim says the parsed time equals the `Time` sub-element's value
when present and the sentinel when absent, never failing.  The code instead
raises `NameError` (`s = e.text` with `e` undefined) exactly when the
sub-element is present; only the sentinel branch works. -/
theorem C3_date_of_bug :
    date_of (some 1600000000) = .error .nameError ∧
    date_of none = .ok sentinel_time :=
  ⟨rfl, rfl⟩

/-- C5: `mph` returns `0.0` for a zero duration without raising (for every
meters value, including `nan`), and otherwise computes
`meters * MILES_PER_METER / duration * 3600`. -/
theorem C5_mph (meters : FloatQ) (m dur : ℚ) :
    mph meters 0 = FloatQ.val 0 ∧
    (dur ≠ 0 → mph (FloatQ.val m) dur = FloatQ.val (m * MILES_PER_METER / dur * 3600)) := by
  constructor
  · cases meters <;> simp [mph, FloatQ.mul, FloatQ.div]
  · intro h
    simp only [mph, FloatQ.mul, FloatQ.div, if_neg h]
    have : m * MILES_PER_METER / dur * 60 * 60 = m * MILES_PER_METER / dur * 3600 := by ring
    rw [this]

/-- C5 witness: `mph(0, 0) == 0.0`, `mph(nan, 0) == 0.0`, and a concrete
nonzero duration follows the formula. -/
theorem C5_mph_witness :
    mph (FloatQ.val 0) 0 = FloatQ.val 0 ∧
    mph FloatQ.nan 0 = FloatQ.val 0 ∧
    mph (FloatQ.val 1000) 2 = FloatQ.val (1000 * MILES_PER_METER / 2 * 3600) :=
  ⟨(C5_mph (FloatQ.val 0) 0 2).1, (C5_mph FloatQ.nan 0 2).1,
    (C5_mph (FloatQ.val 1000) 1000 2).2 (by norm_num)⟩

/-- C8: interpolation is exact at fraction 0 (the earlier value) and at
fraction 1 (the later value); the milepost time is computed by the same
linear expression `previous_time + delta * fraction`, which coincides with
`interpolate` applied to the two times. -/
theorem C8_interpolate :
    ∀ a b : ℚ, interpolate a b 0 = a ∧ interpolate a b 1 = b ∧
      ∀ f : ℚ, a + (b - a) * f = interpolate a b f := by
  intro a b
  refine ⟨by simp [interpolate], by simp [interpolate], fun f => rfl⟩

/-- C6: the claim says kept samples (altitude present) are parsed in order
and a kept sample lacking `Position` fails structurally.  Because `date_of`
raises `NameError` whenever `Time` is present, a perfectly complete element
is not parsed at all; the skip-on-missing-altitude behaviour does hold. -/
theorem C6_parse_bug :
    parse_trackpoints
        [{ time := some 1600000000,
           position := some { latitude := some 40, longitude := some (-75) },
           altitude := some 10, distance := some 0 }] = .error .nameError ∧
    parse_trackpoints
        [{ time := some 1600000000,
           position := some { latitude := some 40, longitude := some (-75) },
           altitude := none, distance := some 0 }] = .ok [] :=
  ⟨rfl, rfl⟩

/-- C10: an element with no altitude field is skipped before anything else
is evaluated — no yield and no exception even when `Position` is also
absent — so the position structural error can only arise for elements that
do have an altitude field. -/
theorem C10_skip_before_position (t : TPElement) (rest : List TPElement)
    (h : t.altitude = none) :
    parseElement t = .ok none ∧
    parse_trackpoints (t :: rest) = parse_trackpoints rest ∧
    ∀ u : TPElement, parseElement u = .error .attributeError → u.altitude ≠ none := by
  refine ⟨by simp [parseElement, h], by simp [parse_trackpoints, parseElement, h], ?_⟩
  intro u he hcon
  simp [parseElement, hcon] at he

/-- C10 witness: a concrete element with both altitude and position absent
is skipped with no error. -/
theorem C10_skip_before_position_witness :
    parseElement { time := some 5, position := none, altitude := none, distance := none } = .ok none ∧
    parse_trackpoints [{ time := some 5, position := none, altitude := none, distance := none }] =
      parse_trackpoints [] ∧
    ∀ u : TPElement, parseElement u = .error .attributeError → u.altitude ≠ none :=
  C10_skip_before_position
    { time := some 5, position := none, altitude := none, distance := none } [] rfl

/-- C9: two `search` calls whose coordinates format to the same 6-decimal
key invoke the underlying geocoder exactly once (when it returns a
non-`None` result and the key is not already cached), and the second call
returns the identical cached result. -/
theorem C9_caching_geocoder {R : Type} (geo : ℚ → ℚ → Option R)
    (c : CachingGeocoder R) (lat1 lon1 lat2 lon2 : ℚ) (r : R)
    (hkey : geoKey lat1 lon1 = geoKey lat2 lon2)
    (hmiss : dataGet c.data (geoKey lat1 lon1) = none)
    (hgeo : geo lat1 lon1 = some r) :
    (c.search geo lat1 lon1).1 = some r ∧
    (c.search geo lat1 lon1).2.2 = 1 ∧
    ((c.search geo lat1 lon1).2.1.search geo lat2 lon2).1 = some r ∧
    ((c.search geo lat1 lon1).2.1.search geo lat2 lon2).2.2 = 0 := by
  have h1 : c.search geo lat1 lon1 =
      (geo lat1 lon1, ⟨(geoKey lat1 lon1, geo lat1 lon1) :: c.data⟩, 1) := by
    simp [CachingGeocoder.search, hmiss]
  have hget : dataGet ((geoKey lat1 lon1, geo lat1 lon1) :: c.data) (geoKey lat2 lon2) = some r := by
    simp [dataGet, List.find?, ← hkey, hgeo]
  refine ⟨by rw [h1]; exact hgeo, by rw [h1], ?_, ?_⟩
  · rw [h1]
    simp [CachingGeocoder.search, hget]
  · rw [h1]
    simp [CachingGeocoder.search, hget]

/-- C9 witness: two coordinates that differ only beyond the sixth decimal
share a key; from an empty cache the underlying geocoder runs once and both
calls return its result. -/
theorem C9_caching_geocoder_witness :
    ((⟨[]⟩ : CachingGeocoder ℕ).search (fun _ _ => some 7) (40123456789/1000000000) 0).1 = some 7 ∧
    ((⟨[]⟩ : CachingGeocoder ℕ).search (fun _ _ => some 7) (40123456789/1000000000) 0).2.2 = 1 ∧
    ((((⟨[]⟩ : CachingGeocoder ℕ).search (fun _ _ => some 7) (40123456789/1000000000) 0).2.1.search
        (fun _ _ => some 7) (40123456800/1000000000) 0).1 = some 7) ∧
    ((((⟨[]⟩ : CachingGeocoder ℕ).search (fun _ _ => some 7) (40123456789/1000000000) 0).2.1.search
        (fun _ _ => some 7) (40123456800/1000000000) 0).2.2 = 0) :=
  C9_caching_geocoder (fun _ _ => some 7) ⟨[]⟩
    (40123456789/1000000000) 0 (40123456800/1000000000) 0 7
    (by norm_num [geoKey, format6, round_eq]) (by simp [dataGet]) rfl

/-- The mutable loop state of `compute_mileposts`.  Before the first sample
is processed, `previous_time` holds the integer `0` (unusable in datetime
subtraction: `TypeError`), `previous_miles` holds the number `0`, and
`previous_point` is an unbound local (`NameError`/`UnboundLocalError` on
use). -/
structure MpState where
  previousTime : Option ℚ
  previousMiles : FloatQ
  previousPoint : Option Trackpoint
deriving DecidableEq, Repr

/-- How many integer mile boundaries remain strictly below `miles`, starting
from `nextMile` (0 when `miles` is `nan`): the iteration count of the inner
while loop. -/
def FloatQ.gap : FloatQ → ℕ → ℕ
  | nan, _ => 0
  | val m, nm => (⌈m⌉ - (nm : ℤ)).toNat

/-- The inner `while miles > next_mile` loop of `compute_mileposts` for one
sample.  Each iteration evaluates, in source order: the `fraction` division
(possible `ZeroDivisionError`), `delta = d.time - previous_time`
(`TypeError` when `previous_time` is still the initial integer `0`),
`delta * fraction` (`ValueError` when the fraction is `nan`, as
`timedelta * nan` raises), and the interpolations through `previous_point`
(`NameError` when it is still unbound).  Returns the synthesized mileposts
and the final `next_mile`. -/
def mpInner (point : Trackpoint) (miles : FloatQ) (st : MpState) (nextMile : ℕ) :
    Except Err (List Trackpoint × ℕ) :=
  if h : miles.gt (nextMile : ℚ) = true then
    match FloatQ.div (FloatQ.sub (FloatQ.val (nextMile : ℚ)) st.previousMiles)
        (FloatQ.sub miles st.previousMiles) with
    | .error e => .error e
    | .ok fraction =>
      match st.previousTime with
      | none => .error .typeError
      | some pt =>
        let delta := point.time - pt
        match fraction with
        | .nan => .error .valueError
        | .val f =>
          match st.previousPoint with
          | none => .error .nameError
          | some pp =>
            let milepost : Trackpoint :=
              { time := pt + delta * f
                altitude_meters := interpolate pp.altitude_meters point.altitude_meters f
                distance_meters := FloatQ.val ((nextMile : ℚ) / MILES_PER_METER)
                latitude_degrees := interpolate pp.latitude_degrees point.latitude_degrees f
                longitude_degrees := interpolate pp.longitude_degrees point.longitude_degrees f }
            match mpInner point miles st (nextMile + 1) with
            | .error e => .error e
            | .ok (more, nm) => .ok (milepost :: more, nm)
  else
    .ok ([], nextMile)
termination_by miles.gap nextMile
decreasing_by
  cases miles with
  | nan => simp [FloatQ.gt] at h
  | val m =>
    simp only [FloatQ.gt, decide_eq_true_eq] at h
    have hceil : (nextMile : ℤ) < ⌈m⌉ := by
      rw [Int.lt_ceil]
      push_cast
      exact h
    simp only [FloatQ.gap]
    omega

/-- The outer `for point in datapoints` loop of `compute_mileposts`,
threading `next_mile` and the previous-sample state. -/
def computeMilepostsAux : List Trackpoint → ℕ → MpState → Except Err (List Trackpoint)
  | [], _, _ => .ok []
  | point :: rest, nextMile, st =>
    let miles := FloatQ.mul point.distance_meters (FloatQ.val MILES_PER_METER)
    match mpInner point miles st nextMile with
    | .error e => .error e
    | .ok (emitted, nextMile2) =>
      match computeMilepostsAux rest nextMile2 ⟨some point.time, miles, some point⟩ with
      | .error e => .error e
      | .ok more => .ok (emitted ++ more)

/-- `list(compute_mileposts(datapoints))`: `next_mile` starts at 1 and the
previous-sample state starts out unusable (see `MpState`). -/
def compute_mileposts (datapoints : List Trackpoint) : Except Err (List Trackpoint) :=
  computeMilepostsAux datapoints 1 ⟨none, FloatQ.val 0, none⟩

/-- The milepost synthesized at mile `k` between the previous sample `pp`
(at time `pt`, `pm` miles) and the current sample `point` (at `m` miles). -/
def syntheticMilepost (pp point : Trackpoint) (pt pm m k : ℚ) : Trackpoint :=
  let fraction := (k - pm) / (m - pm)
  { time := pt + (point.time - pt) * fraction
    altitude_meters := interpolate pp.altitude_meters point.altitude_meters fraction
    distance_meters := FloatQ.val (k / MILES_PER_METER)
    latitude_degrees := interpolate pp.latitude_degrees point.latitude_degrees fraction
    longitude_degrees := interpolate pp.longitude_degrees point.longitude_degrees fraction }

/-- When the while condition is already false the loop emits nothing and
leaves `next_mile` unchanged. -/
theorem mpInner_done (point : Trackpoint) (miles : FloatQ) (st : MpState) (nm : ℕ)
    (h : miles.gt (nm : ℚ) = false) : mpInner point miles st nm = .ok ([], nm) := by
  unfold mpInner
  simp [h]

/-- When the while body runs with `previous_time` still the initial integer
`0` (and the fraction's division succeeding), the loop raises `TypeError`. -/
theorem mpInner_typeError (point : Trackpoint) (m pm : ℚ) (ppoint : Option Trackpoint)
    (nm : ℕ) (hgt : (nm : ℚ) < m) (hne : m - pm ≠ 0) :
    mpInner point (FloatQ.val m) ⟨none, FloatQ.val pm, ppoint⟩ nm = .error .typeError := by
  unfold mpInner
  rw [dif_pos (by simp [FloatQ.gt]; exact hgt)]
  simp [FloatQ.sub, FloatQ.div, if_neg hne]

/-- Exact behaviour of the inner loop once the previous-sample state is
fully initialised with real (non-`nan`) mile values: it emits one synthetic
milepost per integer mile from `nextMile` up to (excluding) the sample's
mile value, and advances `next_mile` past them. -/
theorem mpInner_spec (point pp : Trackpoint) (pt pm m : ℚ) (hm : m ≠ pm) :
    ∀ nm : ℕ, mpInner point (FloatQ.val m) ⟨some pt, FloatQ.val pm, some pp⟩ nm =
      .ok ((List.range ((⌈m⌉ - (nm : ℤ)).toNat)).map
            (fun i => syntheticMilepost pp point pt pm m ((nm + i : ℕ) : ℚ)),
           nm + (⌈m⌉ - (nm : ℤ)).toNat) := by
  suffices H : ∀ (k : ℕ) (nm : ℕ), (⌈m⌉ - (nm : ℤ)).toNat = k →
      mpInner point (FloatQ.val m) ⟨some pt, FloatQ.val pm, some pp⟩ nm =
        .ok ((List.range k).map
              (fun i => syntheticMilepost pp point pt pm m ((nm + i : ℕ) : ℚ)), nm + k) by
    intro nm
    rw [H ((⌈m⌉ - (nm : ℤ)).toNat) nm rfl]
  intro k
  induction k with
  | zero =>
    intro nm hk
    have hle : m ≤ (nm : ℚ) := by
      have h1 : ⌈m⌉ ≤ (nm : ℤ) := by omega
      calc m ≤ (⌈m⌉ : ℚ) := Int.le_ceil m
        _ ≤ ((nm : ℤ) : ℚ) := by exact_mod_cast h1
        _ = (nm : ℚ) := by push_cast; rfl
    rw [mpInner_done _ _ _ _ (by simp [FloatQ.gt]; exact hle)]
    simp
  | succ k ih =>
    intro nm hk
    have hlt : (nm : ℚ) < m := by
      have h1 : (nm : ℤ) < ⌈m⌉ := by omega
      have := Int.lt_ceil.mp h1
      push_cast at this
      exact this
    have hne : m - pm ≠ 0 := sub_ne_zero.mpr (fun hx => hm hx)
    unfold mpInner
    rw [dif_pos (by simp [FloatQ.gt]; exact hlt)]
    simp only [FloatQ.sub, FloatQ.div, if_neg hne]
    rw [ih (nm + 1) (by push_cast at hk ⊢; omega)]
    have hrange : List.range (k + 1) = 0 :: (List.range k).map Nat.succ :=
      List.range_succ_eq_map k
    rw [hrange]
    simp only [List.map_cons, List.map_map]
    simp only [Except.ok.injEq, Prod.mk.injEq, List.cons.injEq]
    refine ⟨⟨?_, ?_⟩, by omega⟩
    · show _ = syntheticMilepost pp point pt pm m ((nm + 0 : ℕ) : ℚ)
      simp [syntheticMilepost, interpolate]
    · apply List.map_congr_left
      intro i _
      show syntheticMilepost pp point pt pm m ((nm + 1 + i : ℕ) : ℚ) =
        syntheticMilepost pp point pt pm m ((nm + Nat.succ i : ℕ) : ℚ)
      congr 1
      push_cast
      ring

/-- The value of `next_mile` after the loop has consumed samples with the
given mile values, starting from `nm`. -/
def maxMile (nm : ℕ) : List ℚ → ℕ
  | [] => nm
  | m :: rest => maxMile (max nm ⌈m⌉.toNat) rest

/-- For a strictly increasing mile list, the final `next_mile` is determined
by the last sample alone. -/
theorem maxMile_last : ∀ (l : List ℚ), l.Chain' (fun x y : ℚ => x < y) →
    ∀ (h : l ≠ []) (nm : ℕ), maxMile nm l = max nm ⌈l.getLast h⌉.toNat := by
  intro l
  induction l with
  | nil => intro _ h; cases h rfl
  | cons a l ih =>
    intro hch h nm
    cases l with
    | nil => simp [maxMile]
    | cons c l2 =>
      have hch2 : (c :: l2).Chain' (fun x y : ℚ => x < y) := hch.tail
      have hlast : (a :: c :: l2).getLast h = (c :: l2).getLast (List.cons_ne_nil c l2) :=
        List.getLast_cons (List.cons_ne_nil c l2)
      have halt : a < (c :: l2).getLast (List.cons_ne_nil c l2) := by
        have hp := (List.chain'_iff_pairwise).mp hch
        exact (List.pairwise_cons.mp hp).1 _ (List.getLast_mem (List.cons_ne_nil c l2))
      have hstep : maxMile nm (a :: c :: l2) = maxMile (max nm ⌈a⌉.toNat) (c :: l2) := rfl
      rw [hstep, ih hch2 (List.cons_ne_nil c l2) (max nm ⌈a⌉.toNat), hlast]
      have hceil : ⌈a⌉ ≤ ⌈(c :: l2).getLast (List.cons_ne_nil c l2)⌉ :=
        Int.ceil_le_ceil (le_of_lt halt)
      omega

/-- Exact behaviour of the outer loop once the previous-sample state is
initialised: given real, strictly increasing mile values all above the
previous sample's miles, it succeeds; the mileposts' distances are the
consecutive integer miles starting at `nextMile`, and `next_mile` advances
to `maxMile`. -/
theorem computeMilepostsAux_spec :
    ∀ (points : List Trackpoint) (nm : ℕ) (pt pm : ℚ) (pp : Trackpoint),
      (∀ p ∈ points, p.distance_meters = FloatQ.val (distQ p)) →
      List.Chain (fun x y : ℚ => x < y) pm (points.map milesQ) →
      ∃ out : List Trackpoint,
        computeMilepostsAux points nm ⟨some pt, FloatQ.val pm, some pp⟩ = .ok out ∧
        nm + out.length = maxMile nm (points.map milesQ) ∧
        ∀ i (h : i < out.length), (out.get ⟨i, h⟩).distance_meters =
            FloatQ.val (((nm + i : ℕ) : ℚ) / MILES_PER_METER) := by
  intro points
  induction points with
  | nil =>
    intro nm pt pm pp _ _
    exact ⟨[], rfl, by simp [maxMile], by intro i h; cases h⟩
  | cons p rest ih =>
    intro nm pt pm pp hval hchain
    have hvp : p.distance_meters = FloatQ.val (distQ p) := hval p (List.mem_cons_self p rest)
    have hmiles : FloatQ.mul p.distance_meters (FloatQ.val MILES_PER_METER)
        = FloatQ.val (milesQ p) := by
      rw [hvp]; simp [FloatQ.mul, milesQ]
    rw [List.map_cons, List.chain_cons] at hchain
    obtain ⟨hpm, hchain2⟩ := hchain
    have hm : milesQ p ≠ pm := ne_of_gt hpm
    obtain ⟨out2, hout2, hlen2, hidx2⟩ :=
      ih (nm + (⌈milesQ p⌉ - (nm : ℤ)).toNat) p.time (milesQ p) p
        (fun q hq => hval q (List.mem_cons_of_mem p hq)) hchain2
    refine ⟨(List.range ((⌈milesQ p⌉ - (nm : ℤ)).toNat)).map
        (fun i => syntheticMilepost pp p pt pm (milesQ p) ((nm + i : ℕ) : ℚ)) ++ out2, ?_, ?_, ?_⟩
    · simp only [computeMilepostsAux, hmiles, mpInner_spec p pp pt pm (milesQ p) hm, hout2]
    · have hlen1 : ((List.range ((⌈milesQ p⌉ - (nm : ℤ)).toNat)).map
          (fun i => syntheticMilepost pp p pt pm (milesQ p) ((nm + i : ℕ) : ℚ))).length
          = (⌈milesQ p⌉ - (nm : ℤ)).toNat := by simp
      rw [List.length_append, hlen1]
      have hmax : maxMile nm (List.map milesQ (p :: rest))
          = maxMile (max nm ⌈milesQ p⌉.toNat) (rest.map milesQ) := rfl
      rw [hmax]
      have hsame : nm + (⌈milesQ p⌉ - (nm : ℤ)).toNat = max nm ⌈milesQ p⌉.toNat := by omega
      rw [← hsame]
      omega
    · intro i h
      have hlim : i < (⌈milesQ p⌉ - (nm : ℤ)).toNat + out2.length := by
        have h2 := h
        rw [List.length_append] at h2
        simpa using h2
      rw [List.get_eq_getElem]
      by_cases hi : i < (⌈milesQ p⌉ - (nm : ℤ)).toNat
      · rw [List.getElem_append_left (by simpa using hi)]
        simp only [List.getElem_map, List.getElem_range]
        rfl
      · push_neg at hi
        have hi2 : ((List.range ((⌈milesQ p⌉ - (nm : ℤ)).toNat)).map
            (fun i => syntheticMilepost pp p pt pm (milesQ p) ((nm + i : ℕ) : ℚ))).length ≤ i := by
          simpa using hi
        rw [List.getElem_append_right hi2]
        have hrec := hidx2 (i - (⌈milesQ p⌉ - (nm : ℤ)).toNat) (by omega)
        rw [List.get_eq_getElem] at hrec
        simp only [List.length_map, List.length_range]
        rw [hrec]
        have harg : nm + (⌈milesQ p⌉ - (nm : ℤ)).toNat + (i - (⌈milesQ p⌉ - (nm : ℤ)).toNat)
            = nm + i := by omega
        rw [harg]

/-- C4: the claim (and the spec) say a first sample already past mile 1 is
handled using the track's initial point as "previous" without error.  In the
code `previous_time` is the integer `0` and `previous_point` is unbound at
that moment, so the very first while-loop iteration raises `TypeError` on
`d.time - previous_time` (with `previous_point`'s `NameError` right behind
it): a single sample at 2000 m (≈ 1.24 mi) makes `compute_mileposts` fail. -/
theorem C4_first_sample_bug :
    compute_mileposts [{ time := 0, distance_meters := FloatQ.val 2000 }] =
      .error .typeError := by
  have h1 : FloatQ.mul (FloatQ.val 2000) (FloatQ.val MILES_PER_METER)
      = FloatQ.val (1242742/1000000) := by
    simp only [FloatQ.mul, MILES_PER_METER]
    norm_num
  simp only [compute_mileposts, computeMilepostsAux]
  rw [h1, mpInner_typeError _ (1242742/1000000) 0 none 1 (by norm_num) (by norm_num)]

/-- C7: a kept sample with no `DistanceMeters` gets `nan`, and at that
sample the while comparison `miles > next_mile` is false, so the loop emits
nothing and raises nothing there, carrying on to the next sample. -/
theorem C7_nan_distance (p : Trackpoint) (rest : List Trackpoint) (st : MpState) (nm : ℕ)
    (h : p.distance_meters = FloatQ.nan) :
    float_of none = FloatQ.nan ∧
    mpInner p (FloatQ.mul p.distance_meters (FloatQ.val MILES_PER_METER)) st nm = .ok ([], nm) ∧
    computeMilepostsAux (p :: rest) nm st =
      computeMilepostsAux rest nm ⟨some p.time, FloatQ.nan, some p⟩ := by
  have hmul : FloatQ.mul p.distance_meters (FloatQ.val MILES_PER_METER) = FloatQ.nan := by
    rw [h]; rfl
  have hdone : mpInner p FloatQ.nan st nm = .ok ([], nm) := mpInner_done _ _ _ _ rfl
  refine ⟨rfl, by rw [hmul]; exact hdone, ?_⟩
  simp only [computeMilepostsAux, hmul, hdone]
  cases hrec : computeMilepostsAux rest nm ⟨some p.time, FloatQ.nan, some p⟩ <;> simp

/-- C7 witness: a concrete sample with `nan` distance is passed over by the
milepost loop with no emission and no error. -/
theorem C7_nan_distance_witness :
    float_of none = FloatQ.nan ∧
    mpInner { time := 0, distance_meters := FloatQ.nan }
        (FloatQ.mul ({ time := 0, distance_meters := FloatQ.nan } : Trackpoint).distance_meters
          (FloatQ.val MILES_PER_METER))
        ⟨none, FloatQ.val 0, none⟩ 1 = .ok ([], 1) ∧
    computeMilepostsAux [{ time := 0, distance_meters := FloatQ.nan }] 1 ⟨none, FloatQ.val 0, none⟩ =
      computeMilepostsAux [] 1 ⟨some 0, FloatQ.nan, some { time := 0, distance_meters := FloatQ.nan }⟩ :=
  C7_nan_distance { time := 0, distance_meters := FloatQ.nan } [] ⟨none, FloatQ.val 0, none⟩ 1 rfl

/-- Auxiliary: `getLast` commutes with `map`. -/
theorem getLast_map_ne {α β : Type} (f : α → β) (l : List α) (h : l ≠ [])
    (hm : l.map f ≠ []) : (l.map f).getLast hm = f (l.getLast h) := by
  have h3 : (l.map f).getLast? = l.getLast?.map f := List.getLast?_map f l
  rw [List.getLast?_eq_getLast_of_ne_nil hm, List.getLast?_eq_getLast_of_ne_nil h] at h3
  simpa using h3

/-- Full behaviour of `compute_mileposts` on a track whose samples all
carry real distances, strictly increasing, with the first sample at most
one mile out (so that the uninitialised previous-sample state is never
touched): it succeeds, emits one milepost per integer mile strictly below
the final sample's mile value, the i-th at exactly `(i+1)/MILES_PER_METER`
meters. -/
theorem compute_mileposts_spec (first : Trackpoint) (rest : List Trackpoint)
    (hval : ∀ p ∈ first :: rest, p.distance_meters = FloatQ.val (distQ p))
    (hchain : List.Chain (fun a b : Trackpoint => distQ a < distQ b) first rest)
    (hfirst : milesQ first ≤ 1) :
    ∃ out, compute_mileposts (first :: rest) = .ok out ∧
      (out.length : ℤ) =
        max 0 (⌈milesQ ((first :: rest).getLast (List.cons_ne_nil first rest))⌉ - 1) ∧
      ∀ i (h : i < out.length),
        (out.get ⟨i, h⟩).distance_meters = FloatQ.val (((i + 1 : ℕ) : ℚ) / MILES_PER_METER) := by
  have hv1 : first.distance_meters = FloatQ.val (distQ first) :=
    hval first (List.mem_cons_self _ _)
  have hmiles1 : FloatQ.mul first.distance_meters (FloatQ.val MILES_PER_METER)
      = FloatQ.val (milesQ first) := by
    rw [hv1]; simp [FloatQ.mul, milesQ]
  have hchainQ : List.Chain (fun x y : ℚ => x < y) (milesQ first) (rest.map milesQ) := by
    refine List.chain_map_of_chain milesQ ?_ hchain
    intro a b hab
    exact mul_lt_mul_of_pos_right hab (by norm_num [MILES_PER_METER])
  obtain ⟨out2, heq2, hlen2, hidx2⟩ :=
    computeMilepostsAux_spec rest 1 first.time (milesQ first) first
      (fun q hq => hval q (List.mem_cons_of_mem _ hq)) hchainQ
  have hgt : FloatQ.gt (FloatQ.val (milesQ first)) ((1 : ℕ) : ℚ) = false := by
    simp only [FloatQ.gt, Nat.cast_one, decide_eq_false_iff_not, not_lt]
    exact hfirst
  refine ⟨out2, ?_, ?_, ?_⟩
  · simp only [compute_mileposts, computeMilepostsAux, hmiles1,
      mpInner_done first (FloatQ.val (milesQ first)) ⟨none, FloatQ.val 0, none⟩ 1 hgt, heq2]
    simp
  · cases rest with
    | nil =>
      have h0 : out2.length = 0 := by simpa [maxMile] using hlen2
      have hce : ⌈milesQ first⌉ ≤ 1 := by
        have := Int.ceil_le_ceil hfirst
        simpa using this
      have hgl : ([first] : List Trackpoint).getLast (List.cons_ne_nil first []) = first := rfl
      rw [h0, hgl]
      omega
    | cons c rest2 =>
      have hmapne : ((c :: rest2).map milesQ) ≠ [] := by simp
      have hchain2 : List.Chain (fun x y : ℚ => x < y) (milesQ c) (rest2.map milesQ) := by
        rw [List.map_cons] at hchainQ
        exact (List.chain_cons.mp hchainQ).2
      have hchainC : ((c :: rest2).map milesQ).Chain' (fun x y : ℚ => x < y) := by
        rw [List.map_cons]
        exact hchain2
      rw [maxMile_last _ hchainC hmapne 1] at hlen2
      rw [getLast_map_ne milesQ (c :: rest2) (List.cons_ne_nil c rest2) hmapne] at hlen2
      have hgl : (first :: c :: rest2).getLast (List.cons_ne_nil first (c :: rest2))
          = (c :: rest2).getLast (List.cons_ne_nil c rest2) :=
        List.getLast_cons (List.cons_ne_nil c rest2)
      rw [hgl]
      omega
  · intro i h
    have hx := hidx2 i h
    rw [hx]
    have hcomm : 1 + i = i + 1 := Nat.add_comm 1 i
    rw [hcomm]

/-- C1 (amended): on tracks whose samples all carry real distances,
strictly increasing, with the first sample at most one mile from the start,
`compute_mileposts` succeeds and emits one milepost per integer mile
strictly below the final sample's mile value — `ceil(last_mile) - 1` of
them (this equals `floor(last_mile)` except when the last mile is an exact
integer, where one fewer is emitted) — the i-th at exactly
`(i+1) / MILES_PER_METER`, all strictly before the last recorded
distance. -/
theorem C1_mileposts_amended (first : Trackpoint) (rest : List Trackpoint)
    (hval : ∀ p ∈ first :: rest, p.distance_meters = FloatQ.val (distQ p))
    (hchain : List.Chain (fun a b : Trackpoint => distQ a < distQ b) first rest)
    (hfirst : milesQ first ≤ 1) :
    ∃ out, compute_mileposts (first :: rest) = .ok out ∧
      (out.length : ℤ) =
        max 0 (⌈milesQ ((first :: rest).getLast (List.cons_ne_nil first rest))⌉ - 1) ∧
      ∀ i (h : i < out.length),
        (out.get ⟨i, h⟩).distance_meters = FloatQ.val (((i + 1 : ℕ) : ℚ) / MILES_PER_METER) ∧
        ((i + 1 : ℕ) : ℚ) < milesQ ((first :: rest).getLast (List.cons_ne_nil first rest)) := by
  obtain ⟨out, h1, h2, h3⟩ := compute_mileposts_spec first rest hval hchain hfirst
  refine ⟨out, h1, h2, fun i h => ⟨h3 i h, ?_⟩⟩
  have hi : (i : ℤ) < max 0 (⌈milesQ ((first :: rest).getLast (List.cons_ne_nil first rest))⌉ - 1) := by
    rw [← h2]
    exact_mod_cast h
  have hi2 : (i : ℤ) + 1 ≤ ⌈milesQ ((first :: rest).getLast (List.cons_ne_nil first rest))⌉ - 1 := by
    omega
  have hq : ((i + 1 : ℕ) : ℚ) ≤
      (⌈milesQ ((first :: rest).getLast (List.cons_ne_nil first rest))⌉ : ℚ) - 1 := by
    push_cast at hi2 ⊢
    exact_mod_cast hi2
  have hlt : (⌈milesQ ((first :: rest).getLast (List.cons_ne_nil first rest))⌉ : ℚ) - 1
      < milesQ ((first :: rest).getLast (List.cons_ne_nil first rest)) := by
    have := Int.ceil_lt_add_one (milesQ ((first :: rest).getLast (List.cons_ne_nil first rest)))
    linarith
  linarith

/-- C1 counterexample: a track ending at exactly two miles (distance
`2*10^9/621371` m, so `last_mile = 2` exactly) produces only one milepost,
not `floor(last_mile) = 2` — the strict comparison `miles > next_mile`
never emits the boundary lying exactly at the last recorded distance. -/
theorem C1_counterexample :
    ∃ out, compute_mileposts [{ time := 0 },
        { time := 600, distance_meters := FloatQ.val (2000000000/621371) }] = .ok out ∧
      out.length = 1 ∧
      ⌊milesQ ({ time := 600, distance_meters := FloatQ.val (2000000000/621371) } : Trackpoint)⌋ = 2 := by
  obtain ⟨out, h1, h2, _⟩ := compute_mileposts_spec { time := 0 }
    [{ time := 600, distance_meters := FloatQ.val (2000000000/621371) }]
    (by intro p hp; fin_cases hp <;> rfl)
    (by refine List.Chain.cons ?_ List.Chain.nil; norm_num [distQ, FloatQ.toQ])
    (by norm_num [milesQ, distQ, FloatQ.toQ, MILES_PER_METER])
  have hm : milesQ ({ time := 600, distance_meters := FloatQ.val (2000000000/621371) } : Trackpoint)
      = 2 := by
    norm_num [milesQ, distQ, FloatQ.toQ, MILES_PER_METER]
  have hgl : ([{ time := 0 },
      { time := 600, distance_meters := FloatQ.val (2000000000/621371) }] : List Trackpoint).getLast
        (List.cons_ne_nil _ _)
      = { time := 600, distance_meters := FloatQ.val (2000000000/621371) } := rfl
  rw [hgl, hm] at h2
  refine ⟨out, h1, ?_, by rw [hm]; norm_num⟩
  norm_num at h2
  exact_mod_cast h2

/-- C1 witness: a two-sample strictly increasing track (0 m then 2000 m,
about 1.24 mi) satisfies the amended theorem's hypotheses; it yields
exactly one milepost (`ceil(1.242742) - 1 = 1`). -/
theorem C1_mileposts_amended_witness :
    (milesQ ({ time := 0 } : Trackpoint) ≤ 1) ∧
    List.Chain (fun a b : Trackpoint => distQ a < distQ b) { time := 0 }
      [{ time := 600, distance_meters := FloatQ.val 2000 }] ∧
    ∃ out, compute_mileposts [{ time := 0 },
        { time := 600, distance_meters := FloatQ.val 2000 }] = .ok out ∧
      (out.length : ℤ) =
        max 0 (⌈milesQ ({ time := 600, distance_meters := FloatQ.val 2000 } : Trackpoint)⌉ - 1) := by
  refine ⟨by norm_num [milesQ, distQ, FloatQ.toQ, MILES_PER_METER],
    by refine List.Chain.cons ?_ List.Chain.nil; norm_num [distQ, FloatQ.toQ], ?_⟩
  obtain ⟨out, h1, h2, _⟩ := C1_mileposts_amended { time := 0 }
    [{ time := 600, distance_meters := FloatQ.val 2000 }]
    (by intro p hp; fin_cases hp <;> rfl)
    (by refine List.Chain.cons ?_ List.Chain.nil; norm_num [distQ, FloatQ.toQ])
    (by norm_num [milesQ, distQ, FloatQ.toQ, MILES_PER_METER])
  refine ⟨out, h1, ?_⟩
  have hgl : ([{ time := 0 },
      { time := 600, distance_meters := FloatQ.val 2000 }] : List Trackpoint).getLast
        (List.cons_ne_nil _ _)
      = { time := 600, distance_meters := FloatQ.val 2000 } := rfl
  rw [hgl] at h2
  exact h2

/-- The single `Split` built between the running previous boundary and the
next boundary (the loop body of `compute_splits`). -/
def mkSplit (previous b : Trackpoint) : Split :=
  { start := previous.time, stop := b.time, duration := b.time - previous.time,
    meters := FloatQ.sub b.distance_meters previous.distance_meters,
    mph := mph (FloatQ.sub b.distance_meters previous.distance_meters) (b.time - previous.time) }

/-- Unfolding equation for `splitsAux`. -/
theorem splitsAux_cons (prev b : Trackpoint) (bs : List Trackpoint) :
    splitsAux prev (b :: bs) = mkSplit prev b :: splitsAux b bs := rfl

/-- The first emitted split starts at the initial previous boundary. -/
theorem splitsAux_head : ∀ (bs : List Trackpoint) (b0 prev : Trackpoint),
    (splitsAux prev (bs ++ [b0])).head?.map Split.start = some prev.time := by
  intro bs b0 prev
  cases bs <;> simp [splitsAux_cons, mkSplit]

/-- The last emitted split stops at the final boundary. -/
theorem splitsAux_last : ∀ (bs : List Trackpoint) (b0 prev : Trackpoint),
    (splitsAux prev (bs ++ [b0])).getLast?.map Split.stop = some b0.time := by
  intro bs
  induction bs with
  | nil => intro b0 prev; simp [splitsAux_cons, splitsAux, mkSplit]
  | cons b bs ih =>
    intro b0 prev
    rw [List.cons_append, splitsAux_cons]
    have hne : splitsAux b (bs ++ [b0]) ≠ [] := by
      cases bs <;> simp [splitsAux_cons]
    obtain ⟨c, l2, hl⟩ := List.exists_cons_of_ne_nil hne
    rw [hl, List.getLast?_cons_cons, ← hl]
    exact ih b0 b

/-- Consecutive splits share their boundary: each split's stop is the next
split's start. -/
theorem splitsAux_chain : ∀ (bs : List Trackpoint) (prev : Trackpoint),
    List.Chain' (fun s t : Split => s.stop = t.start) (splitsAux prev bs) := by
  intro bs
  induction bs with
  | nil => intro prev; simp [splitsAux]
  | cons b bs ih =>
    intro prev
    rw [splitsAux_cons, List.chain'_cons']
    refine ⟨?_, ih b⟩
    intro y hy
    cases bs with
    | nil => simp [splitsAux] at hy
    | cons c bs2 =>
      rw [splitsAux_cons] at hy
      simp only [List.head?_cons, Option.mem_def, Option.some.injEq] at hy
      rw [← hy]
      simp [mkSplit]

/-- The split durations telescope to the final boundary's time minus the
initial previous boundary's time. -/
theorem splitsAux_durations : ∀ (bs : List Trackpoint) (b0 prev : Trackpoint),
    ((splitsAux prev (bs ++ [b0])).map Split.duration).sum = b0.time - prev.time := by
  intro bs
  induction bs with
  | nil => intro b0 prev; simp [splitsAux_cons, splitsAux, mkSplit]
  | cons b bs ih =>
    intro b0 prev
    rw [List.cons_append, splitsAux_cons]
    simp only [List.map_cons, List.sum_cons, ih b0 b]
    simp only [mkSplit]
    ring

/-- The split meters telescope, provided every boundary distance is a real
number (a `nan` boundary poisons the whole sum instead). -/
theorem splitsAux_meters : ∀ (bs : List Trackpoint) (b0 prev : Trackpoint) (acc : ℚ),
    prev.distance_meters = FloatQ.val (distQ prev) →
    (∀ b ∈ bs, b.distance_meters = FloatQ.val (distQ b)) →
    b0.distance_meters = FloatQ.val (distQ b0) →
    List.foldl FloatQ.add (FloatQ.val acc) ((splitsAux prev (bs ++ [b0])).map Split.meters)
      = FloatQ.val (acc + (distQ b0 - distQ prev)) := by
  intro bs
  induction bs with
  | nil =>
    intro b0 prev acc hprev _ hb0
    rw [List.nil_append, splitsAux_cons]
    show List.foldl FloatQ.add (FloatQ.val acc)
        [FloatQ.sub b0.distance_meters prev.distance_meters] = _
    rw [hprev, hb0]
    show FloatQ.add (FloatQ.val acc) (FloatQ.val (distQ b0 - distQ prev)) = _
    show FloatQ.val (acc + (distQ b0 - distQ prev)) = _
    rfl
  | cons b bs ih =>
    intro b0 prev acc hprev hall hb0
    have hb : b.distance_meters = FloatQ.val (distQ b) := hall b (List.mem_cons_self b bs)
    rw [List.cons_append, splitsAux_cons]
    simp only [List.map_cons, List.foldl_cons]
    rw [show (mkSplit prev b).meters = FloatQ.sub b.distance_meters prev.distance_meters from rfl]
    rw [hb, hprev]
    rw [show FloatQ.add (FloatQ.val acc) (FloatQ.sub (FloatQ.val (distQ b)) (FloatQ.val (distQ prev)))
        = FloatQ.val (acc + (distQ b - distQ prev)) from rfl]
    rw [ih b0 b _ hb (fun x hx => hall x (List.mem_cons_of_mem _ hx)) hb0]
    congr 1
    ring

/-- C2 (amended): for every non-empty recorded trackpoint list and every
milepost list, the emitted splits chain with no gaps or overlaps — each
split starts where the previous one stopped, the first starts at the first
recorded trackpoint, the last stops at the last recorded trackpoint — and
the durations telescope exactly to the total elapsed time.  The meters sum
telescopes to the total recorded distance under the additional hypothesis
that every distance involved is a real number; a `nan` distance (possible
for a sample whose `DistanceMeters` field was absent) turns the sum into
`nan` instead, which is what forces the restriction. -/
theorem C2_splits_amended (first : Trackpoint) (rest mileposts : List Trackpoint) :
    ∃ splits, compute_splits (first :: rest) mileposts = some splits ∧
      splits ≠ [] ∧
      splits.head?.map Split.start = some first.time ∧
      splits.getLast?.map Split.stop =
        some ((first :: rest).getLast (List.cons_ne_nil first rest)).time ∧
      List.Chain' (fun s t : Split => s.stop = t.start) splits ∧
      (splits.map Split.duration).sum =
        ((first :: rest).getLast (List.cons_ne_nil first rest)).time - first.time ∧
      ((∀ p ∈ first :: rest, p.distance_meters = FloatQ.val (distQ p)) →
        (∀ p ∈ mileposts, p.distance_meters = FloatQ.val (distQ p)) →
        FloatQ.sumList (splits.map Split.meters) =
          FloatQ.sub ((first :: rest).getLast (List.cons_ne_nil first rest)).distance_meters
            first.distance_meters) := by
  refine ⟨splitsAux first
      (mileposts ++ [(first :: rest).getLast (List.cons_ne_nil first rest)]),
    rfl, ?_, splitsAux_head mileposts _ first, splitsAux_last mileposts _ first,
    splitsAux_chain _ first, splitsAux_durations mileposts _ first, ?_⟩
  · cases mileposts <;> simp [splitsAux_cons]
  · intro h1 h2
    have hmem : (first :: rest).getLast (List.cons_ne_nil first rest) ∈ first :: rest :=
      List.getLast_mem (List.cons_ne_nil first rest)
    have hres := splitsAux_meters mileposts
      ((first :: rest).getLast (List.cons_ne_nil first rest)) first 0
      (h1 first (List.mem_cons_self first rest)) h2 (h1 _ hmem)
    rw [FloatQ.sumList, hres,
      h1 first (List.mem_cons_self first rest), h1 _ hmem]
    show FloatQ.val _ = FloatQ.val _
    congr 1
    ring

/-- C2 counterexample: with a `nan`-distance milepost between two recorded
samples at 0 m and 100 m, every split's meters is `nan`, so the meters sum
is `nan` rather than the claimed `100 - 0`; the claim's unrestricted
quantification over milepost lists is therefore false. -/
theorem C2_counterexample :
    (compute_splits
        [{ time := 0 }, { time := 50, distance_meters := FloatQ.val 100 }]
        [{ time := 25, distance_meters := FloatQ.nan }]).map
      (fun splits => FloatQ.sumList (splits.map Split.meters)) = some FloatQ.nan ∧
    FloatQ.sub (FloatQ.val 100) (FloatQ.val 0) = FloatQ.val 100 ∧
    FloatQ.nan ≠ FloatQ.val 100 := by
  refine ⟨?_, by norm_num [FloatQ.sub], by simp⟩
  simp [compute_splits, splitsAux_cons, splitsAux, mkSplit, FloatQ.sub, FloatQ.sumList,
    FloatQ.add]

/-- C2 witness: a concrete track (0 m at t=0, 100 m at t=50) with one real
milepost (50 m at t=25) chains, telescopes its durations to 50, and
telescopes its meters to the full 100 m. -/
theorem C2_splits_amended_witness :
    ∃ splits, compute_splits
        [{ time := 0 }, { time := 50, distance_meters := FloatQ.val 100 }]
        [{ time := 25, distance_meters := FloatQ.val 50 }] = some splits ∧
      List.Chain' (fun s t : Split => s.stop = t.start) splits ∧
      (splits.map Split.duration).sum = 50 - 0 ∧
      FloatQ.sumList (splits.map Split.meters) = FloatQ.sub (FloatQ.val 100) (FloatQ.val 0) := by
  obtain ⟨splits, h1, _, _, _, hch, hdur, hmet⟩ := C2_splits_amended
    { time := 0 } [{ time := 50, distance_meters := FloatQ.val 100 }]
    [{ time := 25, distance_meters := FloatQ.val 50 }]
  refine ⟨splits, h1, hch, hdur, ?_⟩
  exact hmet (by intro p hp; fin_cases hp <;> rfl) (by intro p hp; fin_cases hp <;> rfl)
